import Mathlib

/-!
Verification of the DNS wire codec in `src/dns/dns_message.py`.

Modelling conventions (shallow embedding):
* Python `bytes` values are `List Nat` with every entry below 256.
* Python `str` values are `List Nat` of Unicode code points
  (`pyStr` converts a Lean string literal for readability).
* A Python computation that may raise is a `PyResult`: `ok` a value,
  `exc` a raised exception, or `fuelOut` when the modelled loop exceeds
  its fuel bound (`fuelOut` for every fuel means the loop diverges).
* The `while` loop of `_decode_name` is modelled with an explicit fuel
  parameter threaded through every decoder that decodes names.
-/

set_option maxRecDepth 10000

/-- Python exceptions that the codec can raise, as an abstract error type.
`invalidAnswer` keeps its original cause, mirroring `raise InvalidAnswer from e`. -/
inductive PyExc where
  | indexError
  | structError
  | valueError
  | unicodeDecodeError
  | unicodeEncodeError
  | invalidAnswer (cause : PyExc)
deriving DecidableEq, Repr

/-- Result of a modelled Python computation: a value, a raised exception,
or exhaustion of the loop fuel (the marker used to express divergence). -/
inductive PyResult (α : Type) where
  | ok (val : α)
  | exc (e : PyExc)
  | fuelOut
deriving DecidableEq, Repr

/-- Sequencing of modelled Python computations: exceptions and fuel
exhaustion propagate. -/
def PyResult.bind {α β : Type} : PyResult α → (α → PyResult β) → PyResult β
  | .ok a, f => f a
  | .exc e, _ => .exc e
  | .fuelOut, _ => .fuelOut

instance : Monad PyResult where
  pure := .ok
  bind := PyResult.bind

@[simp]
theorem PyResult.ok_bind {α β : Type} (a : α) (f : α → PyResult β) :
    (PyResult.ok a >>= f) = f a := rfl

@[simp]
theorem PyResult.exc_bind {α β : Type} (e : PyExc) (f : α → PyResult β) :
    (PyResult.exc e >>= f) = .exc e := rfl

@[simp]
theorem PyResult.fuelOut_bind {α β : Type} (f : α → PyResult β) :
    ((PyResult.fuelOut : PyResult α) >>= f) = .fuelOut := rfl

@[simp]
theorem PyResult.pure_eq {α : Type} (a : α) : (pure a : PyResult α) = .ok a := rfl

/-- Python slice `b[i:j]` for nonnegative indices: never raises, and is
shorter than `j - i` when the buffer ends early. -/
def pySlice (b : List Nat) (i j : Nat) : List Nat :=
  (b.drop i).take (j - i)

/-- Python indexing `b[i]` (nonnegative index): raises `IndexError` when
out of range. -/
def pyIndex (b : List Nat) (i : Nat) : PyResult Nat :=
  if h : i < b.length then .ok (b.get ⟨i, h⟩) else .exc .indexError

/-- A Lean string literal viewed as a Python string (its code points). -/
def pyStr (s : String) : List Nat := s.data.map Char.toNat

/-- UTF-8 encoding of one code point, as CPython's `str.encode()` emits it. -/
def utf8EncodeChar (c : Nat) : List Nat :=
  if c < 0x80 then [c]
  else if c < 0x800 then [0xC0 + c / 64, 0x80 + c % 64]
  else if c < 0x10000 then [0xE0 + c / 4096, 0x80 + c / 64 % 64, 0x80 + c % 64]
  else [0xF0 + c / 262144, 0x80 + c / 4096 % 64, 0x80 + c / 64 % 64, 0x80 + c % 64]

/-- Python `str.encode()`: UTF-8 bytes of the code points; raises
`UnicodeEncodeError` on surrogates (which CPython refuses to encode). -/
def pyStrEncode (s : List Nat) : PyResult (List Nat) :=
  if s.all (fun c => decide (c < 0xD800) || (decide (0xDFFF < c) && decide (c < 0x110000))) then
    .ok (s.flatMap utf8EncodeChar)
  else .exc .unicodeEncodeError

/-- Worker for `utf8Decode`: strict UTF-8 decoding into code points,
`none` on any malformed, truncated, overlong or surrogate sequence.  The
fuel only eases the recursion; one unit per decoded character and at
least one byte consumed per character make `fuel = length` exact. -/
def utf8DecodeGo : Nat → List Nat → Option (List Nat)
  | _, [] => some []
  | 0, _ :: _ => none
  | fuel + 1, b0 :: rest =>
    if b0 < 0x80 then
      (utf8DecodeGo fuel rest).map (b0 :: ·)
    else if b0 < 0xC2 then none
    else if b0 < 0xE0 then
      match rest with
      | b1 :: rest2 =>
        if 0x80 ≤ b1 ∧ b1 < 0xC0 then
          (utf8DecodeGo fuel rest2).map (((b0 - 0xC0) * 64 + (b1 - 0x80)) :: ·)
        else none
      | [] => none
    else if b0 < 0xF0 then
      match rest with
      | b1 :: b2 :: rest3 =>
        if (0x80 ≤ b1 ∧ b1 < 0xC0) ∧ (0x80 ≤ b2 ∧ b2 < 0xC0)
            ∧ ¬(b0 = 0xE0 ∧ b1 < 0xA0) ∧ ¬(b0 = 0xED ∧ 0xA0 ≤ b1) then
          (utf8DecodeGo fuel rest3).map
            (((b0 - 0xE0) * 4096 + (b1 - 0x80) * 64 + (b2 - 0x80)) :: ·)
        else none
      | _ => none
    else if b0 < 0xF5 then
      match rest with
      | b1 :: b2 :: b3 :: rest4 =>
        if (0x80 ≤ b1 ∧ b1 < 0xC0) ∧ (0x80 ≤ b2 ∧ b2 < 0xC0) ∧ (0x80 ≤ b3 ∧ b3 < 0xC0)
            ∧ ¬(b0 = 0xF0 ∧ b1 < 0x90) ∧ ¬(b0 = 0xF4 ∧ 0x90 ≤ b1) then
          (utf8DecodeGo fuel rest4).map
            (((b0 - 0xF0) * 262144 + (b1 - 0x80) * 4096 + (b2 - 0x80) * 64 + (b3 - 0x80)) :: ·)
        else none
      | _ => none
    else none

/-- Python `bytes.decode('utf-8')`. -/
def utf8Decode (l : List Nat) : Option (List Nat) := utf8DecodeGo l.length l

/-- The module constant `_MAX_DOUBLE_BYTE_NUMBER = 65535`. -/
def _MAX_DOUBLE_BYTE_NUMBER : Nat := 65535

/-- `_encode_number`: 2-byte big-endian encoding guarded by
`0 <= number < _MAX_DOUBLE_BYTE_NUMBER`, raising `ValueError` otherwise
(`struct.pack` cannot fail inside the guarded range). -/
def _encode_number (number : Int) : PyResult (List Nat) :=
  if 0 ≤ number ∧ number < (_MAX_DOUBLE_BYTE_NUMBER : Int) then
    .ok [number.toNat / 256, number.toNat % 256]
  else .exc .valueError

/-- `_decode_number`: `struct.unpack('!H', b)` needs exactly 2 bytes and
reads them big-endian; any other length raises `struct.error`. -/
def _decode_number (in_bytes : List Nat) : PyResult Nat :=
  match in_bytes with
  | [a, b] => .ok (a * 256 + b)
  | _ => .exc .structError

/-- `struct.pack('!B', n)`: one byte, raising `struct.error` when the
value does not fit (a label length above 255). -/
def packB (n : Nat) : PyResult (List Nat) :=
  if n < 256 then .ok [n] else .exc .structError

/-- Python `str.split('.')` on code points: always returns at least one
(possibly empty) part, splitting at every dot. -/
def splitOnDot : List Nat → List (List Nat)
  | [] => [[]]
  | c :: rest =>
    if c = 46 then [] :: splitOnDot rest
    else
      match splitOnDot rest with
      | t :: ts => (c :: t) :: ts
      | [] => [[c]]

/-- The `for d in domains` loop of `_encode_name`: for each label one
length byte (`len(d)`, the character count) then the label's UTF-8 bytes,
concatenated in order; the first raising label aborts the whole encode. -/
def encodeLabels : List (List Nat) → PyResult (List Nat)
  | [] => .ok []
  | d :: rest => do
    let lb ← packB d.length
    let db ← pyStrEncode d
    let tail ← encodeLabels rest
    pure (lb ++ db ++ tail)

/-- `_encode_name`: split the name on `.`, run the label loop, then append
the single zero terminator byte. -/
def _encode_name (name : List Nat) : PyResult (List Nat) := do
  let parts ← encodeLabels (splitOnDot name)
  pure (parts ++ [0])

/-- Python `'.'.join(tokens)` on code-point strings. -/
def pyJoinDot : List (List Nat) → List Nat
  | [] => []
  | [t] => t
  | t :: ts => t ++ 46 :: pyJoinDot ts

/-- The namedtuple `decoded_name(decoded_, offset)` returned by `_decode_name`. -/
structure DecodedName where
  decoded_ : List Nat
  offset : Nat
deriving DecidableEq, Repr

/-- The `while in_bytes[index]` loop of `_decode_name`, with explicit fuel.
State: `index` is the read cursor, `offset` the pending return offset
(0 while no pointer has been followed), `toks` the labels read so far. -/
def decodeNameGo (in_bytes : List Nat) :
    Nat → Nat → Nat → List (List Nat) → PyResult DecodedName
  | 0, _, _, _ => .fuelOut
  | fuel + 1, index, offset, toks =>
    match pyIndex in_bytes index with
    | .exc e => .exc e
    | .fuelOut => .fuelOut
    | .ok current_byte =>
      if current_byte = 0 then
        .ok ⟨pyJoinDot toks, if offset = 0 then index + 1 else offset⟩
      else if current_byte >>> 6 = 3 then
        match _decode_number (pySlice in_bytes index (index + 2)) with
        | .ok n =>
          decodeNameGo in_bytes fuel (n ^^^ (3 <<< 14))
            (if offset = 0 then index + 2 else offset) toks
        | .exc e => .exc e
        | .fuelOut => .fuelOut
      else
        match utf8Decode (pySlice in_bytes (index + 1) (index + 1 + current_byte)) with
        | some tok => decodeNameGo in_bytes fuel (index + current_byte + 1) offset (toks ++ [tok])
        | none => .exc .unicodeDecodeError

/-- `_decode_name(in_bytes, offset)`: run the loop from `index = offset`
with no pointer followed yet and no labels accumulated. -/
def _decode_name (fuel : Nat) (in_bytes : List Nat) (offset : Nat) : PyResult DecodedName :=
  decodeNameGo in_bytes fuel offset 0 []

/-- The buffer of the spec's pointer-resolution example: the label
`example` followed by the pointer bytes `0xC0 0x14` at offset 0, filler,
and `com` terminated by a zero byte at offset 20. -/
def ptrExampleBuf : List Nat :=
  [7, 101, 120, 97, 109, 112, 108, 101, 0xC0, 0x14,
   0, 0, 0, 0, 0, 0, 0, 0, 0, 0,
   3, 99, 111, 109, 0]

/-- A two-byte buffer whose first byte is a pointer to offset 0: following
the pointer re-reads the pointer itself, so the decode loop never reaches
a zero byte. -/
def cycleBuf : List Nat := [0xC0, 0x00]

/-- Python indexing steps through a cons cell. -/
theorem pyIndex_cons_succ (a : Nat) (l : List Nat) (n : Nat) :
    pyIndex (a :: l) (n + 1) = pyIndex l n := by
  unfold pyIndex
  by_cases h : n < l.length
  · rw [dif_pos h, dif_pos (by simpa using Nat.succ_lt_succ h)]
    rfl
  · rw [dif_neg h, dif_neg (by simpa using fun hh => h (Nat.lt_of_succ_lt_succ hh))]

/-- Indexing just past a prefix reads the head of the suffix. -/
theorem pyIndex_append : ∀ (pre : List Nat) (x : Nat) (rest : List Nat),
    pyIndex (pre ++ x :: rest) pre.length = .ok x := by
  intro pre
  induction pre with
  | nil => intro x rest; simp [pyIndex]
  | cons a as ih =>
    intro x rest
    rw [List.cons_append, List.length_cons, pyIndex_cons_succ]
    exact ih x rest

/-- Once the pending return offset is nonzero (a pointer has been
followed), no later iteration of the `_decode_name` loop changes it. -/
theorem decodeNameGo_offset_frozen (b : List Nat) :
    ∀ (fuel index off : Nat) (toks : List (List Nat)) (r : DecodedName),
      off ≠ 0 → decodeNameGo b fuel index off toks = .ok r → r.offset = off := by
  intro fuel
  induction fuel with
  | zero =>
    intro index off toks r hoff h
    exact absurd h (by simp [decodeNameGo])
  | succ n ih =>
    intro index off toks r hoff h
    rw [decodeNameGo] at h
    cases hpi : pyIndex b index with
    | exc e => rw [hpi] at h; exact absurd h (by simp)
    | fuelOut => rw [hpi] at h; exact absurd h (by simp)
    | ok cur =>
      rw [hpi] at h
      by_cases hz : cur = 0
      · simp only [if_pos hz] at h
        cases h
        simp [if_neg hoff]
      · simp only [if_neg hz] at h
        by_cases hp : cur >>> 6 = 3
        · simp only [if_pos hp] at h
          cases hdn : _decode_number (pySlice b index (index + 2)) with
          | ok m => rw [hdn, if_neg hoff] at h; exact ih _ _ _ _ hoff h
          | exc e => rw [hdn] at h; exact absurd h (by simp)
          | fuelOut => rw [hdn] at h; exact absurd h (by simp)
        · simp only [if_neg hp] at h
          cases hu : utf8Decode (pySlice b (index + 1) (index + 1 + cur)) with
          | some tok => rw [hu] at h; exact ih _ _ _ _ hoff h
          | none => rw [hu] at h; exact absurd h (by simp)

/-- When the loop reaches a pointer byte with no pointer followed yet,
any successful decode returns offset two bytes past that pointer. -/
theorem decodeNameGo_first_pointer (b : List Nat) :
    ∀ (fuel index : Nat) (toks : List (List Nat)) (r : DecodedName) (h : index < b.length),
      192 ≤ b.get ⟨index, h⟩ → b.get ⟨index, h⟩ < 256 →
      decodeNameGo b fuel index 0 toks = .ok r → r.offset = index + 2 := by
  intro fuel index toks r h hlo hhi heq
  cases fuel with
  | zero => exact absurd heq (by simp [decodeNameGo])
  | succ n =>
    rw [decodeNameGo] at heq
    rw [show pyIndex b index = .ok (b.get ⟨index, h⟩) from dif_pos h] at heq
    have hz : b.get ⟨index, h⟩ ≠ 0 := by omega
    have hp : b.get ⟨index, h⟩ >>> 6 = 3 := by
      rw [Nat.shiftRight_eq_div_pow]
      omega
    simp only [if_neg hz, if_pos hp] at heq
    cases hdn : _decode_number (pySlice b index (index + 2)) with
    | ok m =>
      rw [hdn] at heq
      simp only [if_pos rfl] at heq
      exact decodeNameGo_offset_frozen b n _ _ _ _ (by omega) heq
    | exc e => rw [hdn] at heq; exact absurd heq (by simp)
    | fuelOut => rw [hdn] at heq; exact absurd heq (by simp)

/-- When the loop reaches the terminating zero byte with no pointer
followed, the returned offset is one byte past that zero. -/
theorem decodeNameGo_zero_no_pointer (b : List Nat) :
    ∀ (fuel index : Nat) (toks : List (List Nat)) (r : DecodedName) (h : index < b.length),
      b.get ⟨index, h⟩ = 0 →
      decodeNameGo b fuel index 0 toks = .ok r → r.offset = index + 1 := by
  intro fuel index toks r h hz heq
  cases fuel with
  | zero => exact absurd heq (by simp [decodeNameGo])
  | succ n =>
    rw [decodeNameGo] at heq
    rw [show pyIndex b index = .ok (b.get ⟨index, h⟩) from dif_pos h] at heq
    simp only [if_pos hz] at heq
    cases heq
    rfl

/-- C1: `_decode_name` scans length-prefixed labels, follows pointer bytes
(top two bits `11`) transitively, and its returned continuation offset is
frozen at two bytes past the first pointer followed (never one reached via
a jump); with no pointer it is one byte past the terminating zero.  The
spec's example (`example` label, pointer `0xC0 0x14` to `com` at offset
20) decodes to `example.com` with continuation offset 10. -/
theorem decode_name_offset_contract :
    (∀ (b : List Nat) (fuel index off : Nat) (toks : List (List Nat)) (r : DecodedName),
      off ≠ 0 → decodeNameGo b fuel index off toks = .ok r → r.offset = off)
    ∧ (∀ (b : List Nat) (fuel index : Nat) (toks : List (List Nat)) (r : DecodedName)
        (h : index < b.length), 192 ≤ b.get ⟨index, h⟩ → b.get ⟨index, h⟩ < 256 →
        decodeNameGo b fuel index 0 toks = .ok r → r.offset = index + 2)
    ∧ (∀ (b : List Nat) (fuel index : Nat) (toks : List (List Nat)) (r : DecodedName)
        (h : index < b.length), b.get ⟨index, h⟩ = 0 →
        decodeNameGo b fuel index 0 toks = .ok r → r.offset = index + 1)
    ∧ _decode_name 10 ptrExampleBuf 0 = .ok ⟨pyStr "example.com", 10⟩ :=
  ⟨decodeNameGo_offset_frozen, decodeNameGo_first_pointer,
   decodeNameGo_zero_no_pointer, by decide⟩

/-- Witness for C1: the three offset rules applied at concrete buffers. -/
theorem decode_name_offset_contract_witness :
    ((5 : Nat) ≠ 0 ∧ decodeNameGo [0] 1 0 5 [] = .ok ⟨[], 5⟩
      ∧ (DecodedName.mk [] 5).offset = 5)
    ∧ ((8 : Nat) < ptrExampleBuf.length
      ∧ decodeNameGo ptrExampleBuf 10 8 0 [] = .ok ⟨pyStr "com", 10⟩
      ∧ (DecodedName.mk (pyStr "com") 10).offset = 8 + 2)
    ∧ (decodeNameGo [0] 1 0 0 [] = .ok ⟨[], 1⟩
      ∧ (DecodedName.mk [] 1).offset = 0 + 1) :=
  ⟨⟨by decide, by decide,
    decode_name_offset_contract.1 [0] 1 0 5 [] ⟨[], 5⟩ (by decide) (by decide)⟩,
   ⟨by decide, by decide,
    decode_name_offset_contract.2.1 ptrExampleBuf 10 8 [] ⟨pyStr "com", 10⟩
      (by decide) (by decide) (by decide) (by decide)⟩,
   ⟨by decide,
    decode_name_offset_contract.2.2.1 [0] 1 0 [] ⟨[], 1⟩ (by decide) (by decide) (by decide)⟩⟩

/-- One loop step on `cycleBuf` from the cycle state returns to the same
state: the pointer at offset 0 jumps back to offset 0. -/
theorem cycleBuf_step (n : Nat) :
    decodeNameGo cycleBuf (n + 1) 0 2 [] = decodeNameGo cycleBuf n 0 2 [] := rfl

/-- C9: `_decode_name` has no guard against pointer cycles: on the buffer
`0xC0 0x00` (a pointer to its own start) the loop revisits the same state
forever, so the decode exhausts every fuel bound — it never returns and
never raises, i.e. the Python loop diverges. -/
theorem decode_name_pointer_cycle_diverges :
    ∀ fuel : Nat, _decode_name fuel cycleBuf 0 = .fuelOut := by
  have key : ∀ n : Nat, decodeNameGo cycleBuf n 0 2 [] = .fuelOut := by
    intro n
    induction n with
    | zero => rfl
    | succ m ih => rw [cycleBuf_step]; exact ih
  intro fuel
  cases fuel with
  | zero => rfl
  | succ n =>
    show decodeNameGo cycleBuf n 0 2 [] = .fuelOut
    exact key n

/-- The module constant cast to `Int`. -/
theorem maxDB_cast : ((_MAX_DOUBLE_BYTE_NUMBER : Nat) : Int) = 65535 := by
  norm_num [_MAX_DOUBLE_BYTE_NUMBER]

/-- C3: `_encode_number` returns the exact 2-byte big-endian encoding of
`n` when `0 <= n < 65535` (so `_decode_number` recovers `n`), and raises
`ValueError` exactly when `n` is negative or at least 65535; in
particular 65535 itself is rejected although it fits in two bytes. -/
theorem encode_number_contract :
    ∀ n : Int,
      (0 ≤ n ∧ n < 65535 →
        _encode_number n = .ok [n.toNat / 256, n.toNat % 256]
        ∧ n.toNat / 256 < 256 ∧ n.toNat % 256 < 256
        ∧ _decode_number [n.toNat / 256, n.toNat % 256] = .ok n.toNat)
      ∧ (_encode_number n = .exc .valueError ↔ n < 0 ∨ 65535 ≤ n)
      ∧ _encode_number 65535 = .exc .valueError := by
  intro n
  refine ⟨fun h => ?_, ?_, by decide⟩
  · have hc : 0 ≤ n ∧ n < (_MAX_DOUBLE_BYTE_NUMBER : Int) := by
      rw [maxDB_cast]; exact h
    have hn : n.toNat < 65535 := by omega
    refine ⟨by rw [_encode_number, if_pos hc], by omega, by omega, ?_⟩
    rw [_decode_number]
    congr 1
    omega
  · rw [_encode_number, maxDB_cast]
    by_cases hc : 0 ≤ n ∧ n < 65535
    · rw [if_pos hc]
      simp
      omega
    · rw [if_neg hc]
      simp
      omega

/-- Witness for C3: the in-range value 5 encodes to `00 05` and decodes
back, and the boundary value 65535 raises `ValueError`. -/
theorem encode_number_contract_witness :
    _encode_number 5 = .ok [0, 5] ∧ _decode_number [0, 5] = .ok 5
    ∧ _encode_number 65535 = .exc .valueError
    ∧ _encode_number (-1) = .exc .valueError := by
  obtain ⟨h1, -, -, h2⟩ := (encode_number_contract 5).1 (by constructor <;> decide)
  refine ⟨h1, h2, (encode_number_contract 0).2.2, ?_⟩
  exact ((encode_number_contract (-1)).2.1).2 (by left; decide)

/-- Joining with a dot distributes over a cons when the tail is nonempty. -/
theorem pyJoinDot_cons (t : List Nat) (ts : List (List Nat)) (h : ts ≠ []) :
    pyJoinDot (t :: ts) = t ++ 46 :: pyJoinDot ts := by
  cases ts with
  | nil => exact absurd rfl h
  | cons t' ts' => rfl

/-- `splitOnDot` never returns an empty list of parts. -/
theorem splitOnDot_ne_nil : ∀ s : List Nat, splitOnDot s ≠ [] := by
  intro s
  cases s with
  | nil => exact fun h => by cases h
  | cons c rest =>
    unfold splitOnDot
    by_cases h : c = 46
    · rw [if_pos h]
      exact fun hh => by cases hh
    · rw [if_neg h]
      cases splitOnDot rest <;> exact fun hh => by cases hh

/-- `'.'.join` undoes `split('.')` on any Python string. -/
theorem pyJoinDot_splitOnDot : ∀ s : List Nat, pyJoinDot (splitOnDot s) = s := by
  intro s
  induction s with
  | nil => rfl
  | cons c rest ih =>
    unfold splitOnDot
    by_cases h : c = 46
    · rw [if_pos h, pyJoinDot_cons _ _ (splitOnDot_ne_nil rest), ih, h]
      rfl
    · rw [if_neg h]
      cases hs : splitOnDot rest with
      | nil => exact absurd hs (splitOnDot_ne_nil rest)
      | cons t ts =>
        rw [hs] at ih
        cases ts with
        | nil =>
          show pyJoinDot [c :: t] = c :: rest
          show c :: t = c :: rest
          rw [show t = rest from ih]
        | cons t2 ts2 =>
          rw [pyJoinDot_cons _ _ (by exact fun hh => by cases hh)]
          rw [pyJoinDot_cons _ _ (by exact fun hh => by cases hh)] at ih
          rw [List.cons_append, ih]

/-- ASCII code points are single UTF-8 bytes. -/
theorem utf8EncodeChar_ascii (c : Nat) (h : c < 128) : utf8EncodeChar c = [c] := by
  rw [utf8EncodeChar, if_pos h]

/-- UTF-8 encoding of an all-ASCII string is the identity on code points. -/
theorem flatMap_utf8_ascii : ∀ l : List Nat, (∀ c ∈ l, c < 128) →
    l.flatMap utf8EncodeChar = l := by
  intro l
  induction l with
  | nil => intro _; rfl
  | cons c rest ih =>
    intro h
    have step : (c :: rest).flatMap utf8EncodeChar =
        utf8EncodeChar c ++ rest.flatMap utf8EncodeChar := rfl
    rw [step, utf8EncodeChar_ascii c (h c (by simp)), ih (fun x hx => h x (by simp [hx]))]
    rfl

/-- `str.encode()` on an all-ASCII string succeeds and is the identity. -/
theorem pyStrEncode_ascii (l : List Nat) (h : ∀ c ∈ l, c < 128) :
    pyStrEncode l = .ok l := by
  have hall : l.all (fun c => decide (c < 0xD800)
      || (decide (0xDFFF < c) && decide (c < 0x110000))) = true := by
    rw [List.all_eq_true]
    intro c hc
    have := h c hc
    simp
    omega
  rw [pyStrEncode, if_pos hall, flatMap_utf8_ascii l h]

/-- UTF-8 decoding of all-ASCII bytes succeeds and is the identity. -/
theorem utf8DecodeGo_ascii : ∀ (fuel : Nat) (l : List Nat), l.length ≤ fuel →
    (∀ c ∈ l, c < 128) → utf8DecodeGo fuel l = some l := by
  intro fuel
  induction fuel with
  | zero =>
    intro l hl _
    cases l with
    | nil => rfl
    | cons c rest => simp at hl
  | succ n ih =>
    intro l hl h
    cases l with
    | nil => rfl
    | cons c rest =>
      rw [show utf8DecodeGo (n + 1) (c :: rest)
          = (utf8DecodeGo n rest).map (c :: ·) from by
        rw [utf8DecodeGo.eq_def]
        exact if_pos (h c (List.mem_cons_self c rest))]
      rw [ih rest (by simp at hl; omega) (fun x hx => h x (List.mem_cons_of_mem c hx))]
      rfl

/-- UTF-8 decoding of all-ASCII bytes succeeds and is the identity. -/
theorem utf8Decode_ascii (l : List Nat) (h : ∀ c ∈ l, c < 128) :
    utf8Decode l = some l :=
  utf8DecodeGo_ascii l.length l (Nat.le_refl _) h

/-- The byte string `_encode_name` produces for a list of labels: one
length byte and the raw label bytes per label, then the terminator. -/
def labelBytes (ls : List (List Nat)) : List Nat :=
  (ls.map (fun l => l.length :: l)).flatten ++ [0]

/-- The encoder loop on short ASCII labels: length byte then raw bytes. -/
theorem encodeLabels_ascii : ∀ ls : List (List Nat),
    (∀ l ∈ ls, l.length ≤ 63 ∧ ∀ c ∈ l, c < 128) →
    encodeLabels ls = .ok (ls.map (fun l => l.length :: l)).flatten := by
  intro ls
  induction ls with
  | nil => intro _; rfl
  | cons d rest ih =>
    intro h
    obtain ⟨hlen, hascii⟩ := h d (by simp)
    rw [encodeLabels]
    rw [show packB d.length = .ok [d.length] from by rw [packB, if_pos (by omega)]]
    rw [pyStrEncode_ascii d hascii, ih (fun l hl => h l (by simp [hl]))]
    simp

/-- Decoding the encoding of nonempty short ASCII labels placed after an
arbitrary prefix reads exactly those labels, follows no pointer, and stops
one byte past the terminator. -/
theorem decodeNameGo_labelBytes :
    ∀ (ls : List (List Nat)) (pre : List Nat) (toks : List (List Nat)) (fuel : Nat),
      (∀ l ∈ ls, l ≠ [] ∧ l.length ≤ 63 ∧ ∀ c ∈ l, c < 128) →
      ls.length < fuel →
      decodeNameGo (pre ++ labelBytes ls) fuel pre.length 0 toks =
        .ok ⟨pyJoinDot (toks ++ ls), pre.length + (labelBytes ls).length⟩ := by
  intro ls
  induction ls with
  | nil =>
    intro pre toks fuel _ hfuel
    obtain ⟨n, rfl⟩ : ∃ n, fuel = n + 1 := ⟨fuel - 1, by omega⟩
    rw [decodeNameGo, show labelBytes [] = [0] from rfl, pyIndex_append]
    rw [List.append_nil]
    rfl
  | cons l rest ih =>
    intro pre toks fuel h hfuel
    obtain ⟨hne, hlen, hascii⟩ := h l (by simp)
    obtain ⟨n, rfl⟩ : ∃ n, fuel = n + 1 := ⟨fuel - 1, by omega⟩
    have hnz : 0 < l.length := List.length_pos.mpr hne
    have hlb : labelBytes (l :: rest) = l.length :: (l ++ labelBytes rest) := by
      simp [labelBytes]
    rw [decodeNameGo, hlb, pyIndex_append]
    have hz : ¬(l.length = 0) := by omega
    have hp : ¬(l.length >>> 6 = 3) := by
      rw [Nat.shiftRight_eq_div_pow]
      omega
    simp only [if_neg hz, if_neg hp]
    have hslice : pySlice (pre ++ l.length :: (l ++ labelBytes rest))
        (pre.length + 1) (pre.length + 1 + l.length) = l := by
      rw [pySlice]
      rw [show pre ++ l.length :: (l ++ labelBytes rest)
          = (pre ++ [l.length]) ++ (l ++ labelBytes rest) from by simp]
      rw [show pre.length + 1 = (pre ++ [l.length]).length from by simp]
      rw [List.drop_left]
      rw [show (pre ++ [l.length]).length + l.length - (pre ++ [l.length]).length
          = l.length from by omega]
      exact List.take_left l (labelBytes rest)
    rw [hslice, utf8Decode_ascii l hascii]
    show decodeNameGo (pre ++ l.length :: (l ++ labelBytes rest)) n
        (pre.length + l.length + 1) 0 (toks ++ [l]) = _
    rw [show pre ++ l.length :: (l ++ labelBytes rest)
        = (pre ++ l.length :: l) ++ labelBytes rest from by simp]
    rw [show pre.length + l.length + 1 = (pre ++ l.length :: l).length from by
      simp
      omega]
    rw [ih (pre ++ l.length :: l) (toks ++ [l]) n
      (fun x hx => h x (by simp [hx])) (by simp at hfuel ⊢; omega)]
    have hjoin : (toks ++ [l]) ++ rest = toks ++ (l :: rest) := by simp
    rw [hjoin]
    have hleneq : (pre ++ l.length :: l).length + (labelBytes rest).length
        = pre.length + (l.length :: (l ++ labelBytes rest)).length := by
      simp
      omega
    rw [hleneq]

/-- C4 (amended): for every dot-separated name whose labels are nonempty,
all-ASCII and at most 63 characters, `_encode_name` emits per label a
1-byte length followed by the label's raw bytes, then one zero terminator,
with every emitted byte below 192 (so never a compression pointer); and
`_decode_name` of that encoding at offset 0 reproduces the name, with
return offset one past the terminator. -/
theorem encode_decode_name_roundtrip :
    ∀ (name : List Nat) (fuel : Nat),
      (∀ l ∈ splitOnDot name, l ≠ [] ∧ l.length ≤ 63 ∧ ∀ c ∈ l, c < 128) →
      (splitOnDot name).length < fuel →
      _encode_name name = .ok (labelBytes (splitOnDot name))
      ∧ _decode_name fuel (labelBytes (splitOnDot name)) 0 =
          .ok ⟨name, (labelBytes (splitOnDot name)).length⟩
      ∧ ∀ x ∈ labelBytes (splitOnDot name), x < 192 := by
  intro name fuel h hfuel
  refine ⟨?_, ?_, ?_⟩
  · rw [_encode_name, encodeLabels_ascii _ (fun l hl => (h l hl).2)]
    simp [labelBytes]
  · have hd := decodeNameGo_labelBytes (splitOnDot name) [] [] fuel h hfuel
    rw [show ([] : List Nat) ++ labelBytes (splitOnDot name)
        = labelBytes (splitOnDot name) from by simp] at hd
    rw [show ([] : List (List Nat)) ++ splitOnDot name = splitOnDot name from by simp] at hd
    rw [pyJoinDot_splitOnDot] at hd
    simpa [_decode_name] using hd
  · intro x hx
    rw [labelBytes] at hx
    rcases List.mem_append.mp hx with hmem | hmem
    · obtain ⟨part, hpart, hxin⟩ := List.mem_flatten.mp hmem
      obtain ⟨l, hl, rfl⟩ := List.mem_map.mp hpart
      obtain ⟨-, hlen, hascii⟩ := h l hl
      rcases List.mem_cons.mp hxin with rfl | hxl
      · omega
      · have := hascii x hxl
        omega
    · have : x = 0 := by simpa using hmem
      omega

/-- Witness for C4 (amended): the round trip at `example.com`. -/
theorem encode_decode_name_roundtrip_witness :
    _encode_name (pyStr "example.com") = .ok (labelBytes (splitOnDot (pyStr "example.com")))
    ∧ _decode_name 3 (labelBytes (splitOnDot (pyStr "example.com"))) 0 =
        .ok ⟨pyStr "example.com", (labelBytes (splitOnDot (pyStr "example.com"))).length⟩
    ∧ ∀ x ∈ labelBytes (splitOnDot (pyStr "example.com")), x < 192 :=
  encode_decode_name_roundtrip (pyStr "example.com") 3 (by decide) (by decide)

/-- C4 counterexample: the name `.` splits into two empty labels (each at
most 63 bytes), encodes to three zero bytes, and decodes to the empty
name — the round trip as claimed fails on it. -/
theorem encode_decode_name_dot_counterexample :
    _encode_name (pyStr ".") = .ok [0, 0, 0]
    ∧ _decode_name 10 [0, 0, 0] 0 = .ok ⟨pyStr "", 1⟩
    ∧ pyStr "" ≠ pyStr "." := by decide

/-- Modelled from the spec: the `dns_enums` module is not under `src/`.
Message type with QUERY=0, RESPONSE=1 (flag bit 15: 0=query, 1=response). -/
inductive MessageType where
  | QUERY
  | RESPONSE
deriving DecidableEq, Repr

/-- Numeric value of a message type. -/
def MessageType.value : MessageType → Nat
  | .QUERY => 0
  | .RESPONSE => 1

/-- Python `MessageType(n)`: raises `ValueError` on a non-member value. -/
def messageTypeOf (n : Nat) : PyResult MessageType :=
  if n = 0 then .ok .QUERY else if n = 1 then .ok .RESPONSE else .exc .valueError

/-- Modelled from the spec: the `dns_enums` module is not under `src/`.
Opcode with STANDARD=0, INVERSE=1, STATUS=2 (the RFC1035 opcodes the spec
names: standard, inverse, server-status). -/
inductive QueryType where
  | STANDARD
  | INVERSE
  | STATUS
deriving DecidableEq, Repr

/-- Numeric value of an opcode. -/
def QueryType.value : QueryType → Nat
  | .STANDARD => 0
  | .INVERSE => 1
  | .STATUS => 2

/-- Python `QueryType(n)`: raises `ValueError` on a non-member value. -/
def queryTypeOf (n : Nat) : PyResult QueryType :=
  if n = 0 then .ok .STANDARD
  else if n = 1 then .ok .INVERSE
  else if n = 2 then .ok .STATUS
  else .exc .valueError

/-- Modelled from the spec: the `dns_enums` module is not under `src/`.
Response codes 0..5 (the RFC1035 RCODEs; the spec names NO_ERROR). -/
inductive ResponseType where
  | NO_ERROR
  | FORMAT_ERROR
  | SERVER_FAILURE
  | NAME_ERROR
  | NOT_IMPLEMENTED
  | REFUSED
deriving DecidableEq, Repr

/-- Numeric value of a response code. -/
def ResponseType.value : ResponseType → Nat
  | .NO_ERROR => 0
  | .FORMAT_ERROR => 1
  | .SERVER_FAILURE => 2
  | .NAME_ERROR => 3
  | .NOT_IMPLEMENTED => 4
  | .REFUSED => 5

/-- Python `ResponseType(n)`: raises `ValueError` on a non-member value. -/
def responseTypeOf (n : Nat) : PyResult ResponseType :=
  if n = 0 then .ok .NO_ERROR
  else if n = 1 then .ok .FORMAT_ERROR
  else if n = 2 then .ok .SERVER_FAILURE
  else if n = 3 then .ok .NAME_ERROR
  else if n = 4 then .ok .NOT_IMPLEMENTED
  else if n = 5 then .ok .REFUSED
  else .exc .valueError

/-- Modelled from the spec: the `dns_enums` module is not under `src/`.
The spec fixes the supported record types to exactly
{A, AAAA, PTR, NS, SOA, TXT, MX, CNAME}; values are the standard RFC
assignments. -/
inductive RRType where
  | A
  | NS
  | CNAME
  | SOA
  | PTR
  | MX
  | TXT
  | AAAA
deriving DecidableEq, Repr

/-- Numeric value of a record type (standard RFC assignments). -/
def RRType.value : RRType → Nat
  | .A => 1
  | .NS => 2
  | .CNAME => 5
  | .SOA => 6
  | .PTR => 12
  | .MX => 15
  | .TXT => 16
  | .AAAA => 28

/-- Python `RRType(n)`: raises `ValueError` on a non-member value. -/
def rrTypeOf (n : Nat) : PyResult RRType :=
  if n = 1 then .ok .A
  else if n = 2 then .ok .NS
  else if n = 5 then .ok .CNAME
  else if n = 6 then .ok .SOA
  else if n = 12 then .ok .PTR
  else if n = 15 then .ok .MX
  else if n = 16 then .ok .TXT
  else if n = 28 then .ok .AAAA
  else .exc .valueError

/-- Modelled from the spec: the `dns_enums` module is not under `src/`.
Record class, always Internet (IN=1) in this system. -/
inductive RRClass where
  | IN
deriving DecidableEq, Repr

/-- Numeric value of a record class. -/
def RRClass.value : RRClass → Nat
  | .IN => 1

/-- Python `RRClass(n)`: raises `ValueError` on a non-member value. -/
def rrClassOf (n : Nat) : PyResult RRClass :=
  if n = 1 then .ok .IN else .exc .valueError

/-- The `_Header` fields. -/
structure Header where
  identifier : Nat
  message_type : MessageType
  query_type : QueryType
  is_authority_answer : Bool
  is_truncated : Bool
  is_recursion_desired : Bool
  is_recursion_available : Bool
  response_type : ResponseType
  question_count : Nat
  answer_count : Nat
  authority_count : Nat
  additional_count : Nat
deriving DecidableEq, Repr

/-- The 16-bit flags word assembled by `_Header._encode_flags`, written
with the same shifts and bitwise-ors as the source. -/
def encodeFlagsVal (mt qt aa tc rd ra rt : Nat) : Nat :=
  (mt <<< 15) ||| (qt <<< 11) ||| (aa <<< 10) ||| (tc <<< 9)
    ||| (rd <<< 8) ||| (ra <<< 7) ||| (0 <<< 3) ||| rt

/-- `_Header._encode_flags`: pack the flag fields and encode as 2 bytes. -/
def _encode_flags (h : Header) : PyResult (List Nat) :=
  _encode_number (encodeFlagsVal h.message_type.value h.query_type.value
    h.is_authority_answer.toNat h.is_truncated.toNat h.is_recursion_desired.toNat
    h.is_recursion_available.toNat h.response_type.value : Nat)

/-- `_Header.to_bytes`: identifier, flags and the four counts, each as a
2-byte big-endian field, concatenated into 12 bytes. -/
def headerToBytes (h : Header) : PyResult (List Nat) := do
  let idb ← _encode_number (h.identifier : Nat)
  let fb ← _encode_flags h
  let qb ← _encode_number (h.question_count : Nat)
  let ab ← _encode_number (h.answer_count : Nat)
  let nb ← _encode_number (h.authority_count : Nat)
  let rb ← _encode_number (h.additional_count : Nat)
  pure (idb ++ fb ++ qb ++ ab ++ nb ++ rb)

/-- Python `int.from_bytes(b, byteorder='big')`: folds bytes, never raises
(an empty or short slice just yields a smaller number). -/
def intFromBytesBE (l : List Nat) : Nat := l.foldl (fun acc b => acc * 256 + b) 0

/-- `_Header.from_bytes`: reads the six 2-byte fields from `beginning`,
unpacks the flags word (reserved bits 4..6 are never consulted), and
returns the header with the offset advanced by 12. -/
def headerFromBytes (in_bytes : List Nat) (beginning : Nat) : PyResult (Header × Nat) := do
  let identifier ← _decode_number (pySlice in_bytes beginning (beginning + 2))
  let flags := intFromBytesBE (pySlice in_bytes (beginning + 2) (beginning + 4))
  let response_type ← responseTypeOf (flags &&& 15)
  let is_recursion_available := decide (flags &&& 0x80 ≠ 0)
  let is_recursion_desired := decide (flags &&& 0x100 ≠ 0)
  let is_truncated := decide (flags &&& 0x200 ≠ 0)
  let is_authority_answer := decide (flags &&& 0x400 ≠ 0)
  let query_type ← queryTypeOf ((flags >>> 11) &&& 15)
  let message_type ← messageTypeOf ((flags >>> 15) &&& 1)
  let qcount ← _decode_number (pySlice in_bytes (beginning + 4) (beginning + 6))
  let anscount ← _decode_number (pySlice in_bytes (beginning + 6) (beginning + 8))
  let authcount ← _decode_number (pySlice in_bytes (beginning + 8) (beginning + 10))
  let addcount ← _decode_number (pySlice in_bytes (beginning + 10) (beginning + 12))
  pure (⟨identifier, message_type, query_type, is_authority_answer, is_truncated,
    is_recursion_desired, is_recursion_available, response_type,
    qcount, anscount, authcount, addcount⟩, beginning + 12)

/-- Exhaustive check over all in-range flag fields: unpacking the packed
flags word recovers every field, and the word is always encodable. -/
theorem flags_roundtrip : ∀ (mt : Fin 2) (qt : Fin 16) (aa tc rd ra : Bool) (rt : Fin 16),
    encodeFlagsVal mt qt aa.toNat tc.toNat rd.toNat ra.toNat rt &&& 15 = rt
    ∧ decide (encodeFlagsVal mt qt aa.toNat tc.toNat rd.toNat ra.toNat rt &&& 128 ≠ 0) = ra
    ∧ decide (encodeFlagsVal mt qt aa.toNat tc.toNat rd.toNat ra.toNat rt &&& 256 ≠ 0) = rd
    ∧ decide (encodeFlagsVal mt qt aa.toNat tc.toNat rd.toNat ra.toNat rt &&& 512 ≠ 0) = tc
    ∧ decide (encodeFlagsVal mt qt aa.toNat tc.toNat rd.toNat ra.toNat rt &&& 1024 ≠ 0) = aa
    ∧ (encodeFlagsVal mt qt aa.toNat tc.toNat rd.toNat ra.toNat rt >>> 11) &&& 15 = qt
    ∧ (encodeFlagsVal mt qt aa.toNat tc.toNat rd.toNat ra.toNat rt >>> 15) &&& 1 = mt
    ∧ encodeFlagsVal mt qt aa.toNat tc.toNat rd.toNat ra.toNat rt < 65535 := by
  decide

/-- Message type values are below 2. -/
theorem messageType_value_lt (t : MessageType) : t.value < 2 := by cases t <;> decide

/-- Opcode values are below 16. -/
theorem queryType_value_lt (t : QueryType) : t.value < 16 := by cases t <;> decide

/-- Response code values are below 16. -/
theorem responseType_value_lt (t : ResponseType) : t.value < 16 := by cases t <;> decide

/-- Looking a message type's own value back up succeeds. -/
theorem messageTypeOf_value (t : MessageType) : messageTypeOf t.value = .ok t := by
  cases t <;> rfl

/-- Looking an opcode's own value back up succeeds. -/
theorem queryTypeOf_value (t : QueryType) : queryTypeOf t.value = .ok t := by
  cases t <;> rfl

/-- Looking a response code's own value back up succeeds. -/
theorem responseTypeOf_value (t : ResponseType) : responseTypeOf t.value = .ok t := by
  cases t <;> rfl

/-- Looking a record type's own value back up succeeds. -/
theorem rrTypeOf_value (t : RRType) : rrTypeOf t.value = .ok t := by
  cases t <;> rfl

/-- Looking a record class's own value back up succeeds. -/
theorem rrClassOf_value (t : RRClass) : rrClassOf t.value = .ok t := by
  cases t <;> rfl

/-- `_encode_number` on an in-range natural number. -/
theorem encode_number_nat (n : Nat) (h : n < 65535) :
    _encode_number (n : Int) = .ok [n / 256, n % 256] := by
  rw [_encode_number, if_pos ⟨Int.natCast_nonneg n, by rw [maxDB_cast]; exact_mod_cast h⟩]
  simp

/-- Big-endian reading of two bytes. -/
theorem intFromBytesBE_two (a b : Nat) : intFromBytesBE [a, b] = a * 256 + b := by
  simp [intFromBytesBE]

/-- The exact 12 bytes `_Header.to_bytes` emits for in-range fields. -/
theorem headerToBytes_ok (ident qc ac nc dc : Nat) (mt : MessageType) (qt : QueryType)
    (aa tc rd ra : Bool) (rt : ResponseType)
    (hid : ident < 65535) (hqc : qc < 65535) (hac : ac < 65535)
    (hnc : nc < 65535) (hdc : dc < 65535) :
    headerToBytes ⟨ident, mt, qt, aa, tc, rd, ra, rt, qc, ac, nc, dc⟩ =
      .ok [ident / 256, ident % 256,
        encodeFlagsVal mt.value qt.value aa.toNat tc.toNat rd.toNat ra.toNat rt.value / 256,
        encodeFlagsVal mt.value qt.value aa.toNat tc.toNat rd.toNat ra.toNat rt.value % 256,
        qc / 256, qc % 256, ac / 256, ac % 256, nc / 256, nc % 256, dc / 256, dc % 256] := by
  have hflags := flags_roundtrip ⟨mt.value, messageType_value_lt mt⟩ ⟨qt.value, queryType_value_lt qt⟩
    aa tc rd ra ⟨rt.value, responseType_value_lt rt⟩
  simp only [Fin.val_mk] at hflags
  rw [headerToBytes, _encode_flags]
  simp only
  rw [encode_number_nat ident hid, encode_number_nat _ hflags.2.2.2.2.2.2.2,
    encode_number_nat qc hqc, encode_number_nat ac hac,
    encode_number_nat nc hnc, encode_number_nat dc hdc]
  simp

/-- `_Header.from_bytes` recovers every field from those 12 bytes. -/
theorem headerFromBytes_inv (ident qc ac nc dc : Nat) (mt : MessageType) (qt : QueryType)
    (aa tc rd ra : Bool) (rt : ResponseType)
    (hid : ident < 65535) (hqc : qc < 65535) (hac : ac < 65535)
    (hnc : nc < 65535) (hdc : dc < 65535) :
    headerFromBytes [ident / 256, ident % 256,
        encodeFlagsVal mt.value qt.value aa.toNat tc.toNat rd.toNat ra.toNat rt.value / 256,
        encodeFlagsVal mt.value qt.value aa.toNat tc.toNat rd.toNat ra.toNat rt.value % 256,
        qc / 256, qc % 256, ac / 256, ac % 256, nc / 256, nc % 256, dc / 256, dc % 256] 0
      = .ok (⟨ident, mt, qt, aa, tc, rd, ra, rt, qc, ac, nc, dc⟩, 12) := by
  have hflags := flags_roundtrip ⟨mt.value, messageType_value_lt mt⟩ ⟨qt.value, queryType_value_lt qt⟩
    aa tc rd ra ⟨rt.value, responseType_value_lt rt⟩
  simp only [Fin.val_mk] at hflags
  obtain ⟨hf15, hf128, hf256, hf512, hf1024, hf11, hfmt, hflt⟩ := hflags
  set f := encodeFlagsVal mt.value qt.value aa.toNat tc.toNat rd.toNat ra.toNat rt.value
    with hfdef
  have hdec : ∀ n : Nat, n < 65535 → _decode_number [n / 256, n % 256] = .ok n := by
    intro n hn
    rw [_decode_number]
    congr 1
    omega
  have hs1 : pySlice [ident / 256, ident % 256, f / 256, f % 256, qc / 256, qc % 256,
      ac / 256, ac % 256, nc / 256, nc % 256, dc / 256, dc % 256] 0 2
      = [ident / 256, ident % 256] := by simp [pySlice]
  have hs2 : pySlice [ident / 256, ident % 256, f / 256, f % 256, qc / 256, qc % 256,
      ac / 256, ac % 256, nc / 256, nc % 256, dc / 256, dc % 256] 2 4
      = [f / 256, f % 256] := by simp [pySlice]
  have hs3 : pySlice [ident / 256, ident % 256, f / 256, f % 256, qc / 256, qc % 256,
      ac / 256, ac % 256, nc / 256, nc % 256, dc / 256, dc % 256] 4 6
      = [qc / 256, qc % 256] := by simp [pySlice]
  have hs4 : pySlice [ident / 256, ident % 256, f / 256, f % 256, qc / 256, qc % 256,
      ac / 256, ac % 256, nc / 256, nc % 256, dc / 256, dc % 256] 6 8
      = [ac / 256, ac % 256] := by simp [pySlice]
  have hs5 : pySlice [ident / 256, ident % 256, f / 256, f % 256, qc / 256, qc % 256,
      ac / 256, ac % 256, nc / 256, nc % 256, dc / 256, dc % 256] 8 10
      = [nc / 256, nc % 256] := by simp [pySlice]
  have hs6 : pySlice [ident / 256, ident % 256, f / 256, f % 256, qc / 256, qc % 256,
      ac / 256, ac % 256, nc / 256, nc % 256, dc / 256, dc % 256] 10 12
      = [dc / 256, dc % 256] := by simp [pySlice]
  rw [headerFromBytes]
  rw [show (0 : Nat) + 2 = 2 from rfl, show (0 : Nat) + 4 = 4 from rfl,
    show (0 : Nat) + 6 = 6 from rfl, show (0 : Nat) + 8 = 8 from rfl,
    show (0 : Nat) + 10 = 10 from rfl, show (0 : Nat) + 12 = 12 from rfl]
  simp only [hs1, hs2, hs3, hs4, hs5, hs6, intFromBytesBE_two,
    hdec ident hid, hdec qc hqc, hdec ac hac, hdec nc hnc, hdec dc hdc,
    PyResult.ok_bind, PyResult.pure_eq]
  rw [show f / 256 * 256 + f % 256 = f from by omega]
  rw [hf15, responseTypeOf_value, hf11, queryTypeOf_value, hfmt, messageTypeOf_value]
  simp only [PyResult.ok_bind, PyResult.pure_eq]
  rw [hf128, hf256, hf512, hf1024]

/-- C5: for every header whose numeric fields are in the encodable range,
`_Header.from_bytes` inverts `_Header.to_bytes`: the 12 emitted bytes
decode to the identical header (identifier, message type, opcode, the four
boolean flags, response code, all four counts) with the offset advanced by
exactly 12; the reserved bits are written as zero and never consulted on
decode. -/
theorem header_roundtrip :
    ∀ h : Header,
      h.identifier < 65535 → h.question_count < 65535 → h.answer_count < 65535 →
      h.authority_count < 65535 → h.additional_count < 65535 →
      ∃ enc : List Nat, headerToBytes h = .ok enc ∧ enc.length = 12
        ∧ headerFromBytes enc 0 = .ok (h, 12) := by
  intro h hid hqc hac hnc hdc
  obtain ⟨ident, mt, qt, aa, tc, rd, ra, rt, qc, ac, nc, dc⟩ := h
  simp only at hid hqc hac hnc hdc
  exact ⟨_, headerToBytes_ok ident qc ac nc dc mt qt aa tc rd ra rt hid hqc hac hnc hdc,
    by simp,
    headerFromBytes_inv ident qc ac nc dc mt qt aa tc rd ra rt hid hqc hac hnc hdc⟩

/-- Witness for C5: a concrete header round-trips through the 12 bytes. -/
theorem header_roundtrip_witness :
    ∃ enc : List Nat,
      headerToBytes ⟨513, .RESPONSE, .STANDARD, false, false, true, true,
        .NO_ERROR, 1, 2, 0, 0⟩ = .ok enc
      ∧ enc.length = 12
      ∧ headerFromBytes enc 0 =
          .ok (⟨513, .RESPONSE, .STANDARD, false, false, true, true,
            .NO_ERROR, 1, 2, 0, 0⟩, 12) :=
  header_roundtrip ⟨513, .RESPONSE, .STANDARD, false, false, true, true,
    .NO_ERROR, 1, 2, 0, 0⟩ (by decide) (by decide) (by decide) (by decide) (by decide)

/-- The `_Question` fields; the constructor always sets class to IN. -/
structure Question where
  name : List Nat
  type_ : RRType
  class_ : RRClass
deriving DecidableEq, Repr

/-- `_Question.to_bytes`: encoded name, then 2-byte type value, then the
2-byte class value (always Internet). -/
def questionToBytes (q : Question) : PyResult (List Nat) := do
  let nb ← _encode_name q.name
  let tb ← _encode_number (q.type_.value : Nat)
  let cb ← _encode_number (q.class_.value : Nat)
  pure (nb ++ tb ++ cb)

/-- `_Question.from_bytes`: decode the name, read the 2-byte type, advance
the offset by 4 past the name's end; the class bytes are never read and
the question's class is the constructor default IN. -/
def questionFromBytes (fuel : Nat) (in_bytes : List Nat) (beginning : Nat) :
    PyResult (Question × Nat) := do
  let dn ← _decode_name fuel in_bytes beginning
  let tval ← _decode_number (pySlice in_bytes dn.offset (dn.offset + 2))
  let type_ ← rrTypeOf tval
  pure (⟨dn.decoded_, type_, RRClass.IN⟩, dn.offset + (2 + 2))

/-- The payload variants, one per supported record type. -/
inductive ResourceData where
  | A (ip : List Nat)
  | AAAA (ip : List Nat)
  | PTR (name : List Nat)
  | NS (name : List Nat)
  | SOA (name_server email_addr : List Nat)
      (serial_number refresh retry expiry nxdomain_ttl : Nat)
  | TXT (text : List Nat)
  | MX (preference : Nat) (name : List Nat)
  | CNAME (cname : List Nat)
deriving DecidableEq, Repr

/-- Python `str(n)` on a natural number, as code points. -/
def pyStrOfNat (n : Nat) : List Nat := (Nat.toDigits 10 n).map Char.toNat

/-- `_AResourceData.__init__`: `struct.unpack('BBBB', data)` demands
exactly 4 bytes, then the dotted decimal string is formed. -/
def decodeA (data : List Nat) : PyResult ResourceData :=
  match data with
  | [a, b, c, d] =>
    .ok (.A (pyJoinDot [pyStrOfNat a, pyStrOfNat b, pyStrOfNat c, pyStrOfNat d]))
  | _ => .exc .structError

/-- The 2-byte chunks `in_bytes[i:i+2]` of the AAAA payload. -/
def chunk2 : List Nat → List (List Nat)
  | [] => []
  | [a] => [[a]]
  | a :: b :: rest => [a, b] :: chunk2 rest

/-- A lowercase hex digit as a code point. -/
def hexDigitChar (n : Nat) : Nat := if n < 10 then 48 + n else 87 + n

/-- Python `bytes.hex`: two lowercase hex digits per byte. -/
def bytesHex (l : List Nat) : List Nat :=
  l.flatMap (fun b => [hexDigitChar (b / 16), hexDigitChar (b % 16)])

/-- Python `':'.join(strings)`. -/
def pyJoinColon : List (List Nat) → List Nat
  | [] => []
  | [t] => t
  | t :: ts => t ++ 58 :: pyJoinColon ts

/-- `_AAAAResourceData.__init__`: hex groups of the 2-byte chunks joined
by colons; never raises. -/
def decodeAAAA (data : List Nat) : PyResult ResourceData :=
  .ok (.AAAA (pyJoinColon ((chunk2 data).map bytesHex)))

/-- `_PTRResourceData.__init__`: decodes its name from the bytes it is
given, starting at offset 0. -/
def decodePTR (fuel : Nat) (in_bytes : List Nat) : PyResult ResourceData := do
  let dn ← _decode_name fuel in_bytes 0
  pure (.PTR dn.decoded_)

/-- `_NSResourceData.__init__`: decodes its name from the full buffer at
the payload offset. -/
def decodeNS (fuel : Nat) (in_bytes : List Nat) (offset : Nat) : PyResult ResourceData := do
  let dn ← _decode_name fuel in_bytes offset
  pure (.NS dn.decoded_)

/-- `struct.unpack('!I', b)`: exactly 4 bytes, big-endian. -/
def unpackU32 (l : List Nat) : PyResult Nat :=
  match l with
  | [a, b, c, d] => .ok (((a * 256 + b) * 256 + c) * 256 + d)
  | _ => .exc .structError

/-- `_SOAResourceData.__init__`: two names from the full buffer, then five
4-byte integers. -/
def decodeSOA (fuel : Nat) (in_bytes : List Nat) (offset : Nat) : PyResult ResourceData := do
  let ns ← _decode_name fuel in_bytes offset
  let em ← _decode_name fuel in_bytes ns.offset
  let off := em.offset
  let serial_number ← unpackU32 (pySlice in_bytes off (off + 4))
  let refresh ← unpackU32 (pySlice in_bytes (off + 4) (off + 8))
  let retry ← unpackU32 (pySlice in_bytes (off + 8) (off + 12))
  let expiry ← unpackU32 (pySlice in_bytes (off + 12) (off + 16))
  let nxdomain_ttl ← unpackU32 (pySlice in_bytes (off + 16) (off + 20))
  pure (.SOA ns.decoded_ em.decoded_ serial_number refresh retry expiry nxdomain_ttl)

/-- `struct.unpack('!B', b)`: exactly 1 byte. -/
def unpackU8 (l : List Nat) : PyResult Nat :=
  match l with
  | [a] => .ok a
  | _ => .exc .structError

/-- `_TXTResourceData.__init__`: 1-byte length then that many UTF-8 bytes
from the full buffer. -/
def decodeTXT (in_bytes : List Nat) (offset : Nat) : PyResult ResourceData := do
  let length ← unpackU8 (pySlice in_bytes offset (offset + 1))
  match utf8Decode (pySlice in_bytes (offset + 1) (offset + 1 + length)) with
  | some t => pure (.TXT t)
  | none => .exc .unicodeDecodeError

/-- `_MXResourceData.__init__`: 2-byte preference then a name from the
full buffer. -/
def decodeMX (fuel : Nat) (in_bytes : List Nat) (offset : Nat) : PyResult ResourceData := do
  let preference ← _decode_number (pySlice in_bytes offset (offset + 2))
  let dn ← _decode_name fuel in_bytes (offset + 2)
  pure (.MX preference dn.decoded_)

/-- `_CNAMEResourceData.__init__`: a name from the full buffer. -/
def decodeCNAME (fuel : Nat) (in_bytes : List Nat) (offset : Nat) : PyResult ResourceData := do
  let dn ← _decode_name fuel in_bytes offset
  pure (.CNAME dn.decoded_)

/-- `_ResourceRecord._decode_data`: slice out `length` payload bytes, then
dispatch on the record type.  A, AAAA and PTR receive only the sliced
payload (`data_in_bytes`); NS, SOA, TXT, MX and CNAME receive the full
buffer and the payload offset. -/
def rrDecodeData (fuel : Nat) (in_bytes : List Nat) (type_ : RRType)
    (length offset : Nat) : PyResult ResourceData :=
  let data_in_bytes := pySlice in_bytes offset (offset + length)
  match type_ with
  | .A => decodeA data_in_bytes
  | .AAAA => decodeAAAA data_in_bytes
  | .PTR => decodePTR fuel data_in_bytes
  | .NS => decodeNS fuel in_bytes offset
  | .SOA => decodeSOA fuel in_bytes offset
  | .TXT => decodeTXT in_bytes offset
  | .MX => decodeMX fuel in_bytes offset
  | .CNAME => decodeCNAME fuel in_bytes offset

/-- The `_ResourceRecord` fields. -/
structure ResourceRecord where
  name : List Nat
  type_ : RRType
  class_ : RRClass
  ttl : Nat
  length : Nat
  data : ResourceData
deriving DecidableEq, Repr

/-- `_ResourceRecord.from_bytes`: name, type, class, TTL and data length
from the envelope, then the payload dispatch; the returned offset is the
position right after the data-length field plus the decoded `length`,
regardless of what the payload decoder consumed. -/
def rrFromBytes (fuel : Nat) (in_bytes : List Nat) (beginning : Nat) :
    PyResult (ResourceRecord × Nat) := do
  let dn ← _decode_name fuel in_bytes beginning
  let tval ← _decode_number (pySlice in_bytes dn.offset (dn.offset + 2))
  let type_ ← rrTypeOf tval
  let cval ← _decode_number (pySlice in_bytes (dn.offset + 2) (dn.offset + 4))
  let class_ ← rrClassOf cval
  let ttl ← unpackU32 (pySlice in_bytes (dn.offset + 4) (dn.offset + 8))
  let length ← _decode_number (pySlice in_bytes (dn.offset + 8) (dn.offset + 10))
  let data ← rrDecodeData fuel in_bytes type_ length (dn.offset + 10)
  pure (⟨dn.decoded_, type_, class_, ttl, length, data⟩, dn.offset + 10 + length)

/-- The `Answer` fields. -/
structure Answer where
  header : Header
  questions : List Question
  answers : List ResourceRecord
  authorities : List ResourceRecord
  additions : List ResourceRecord
deriving DecidableEq, Repr

/-- One `for _ in range(count)` decoding loop of `Answer.from_bytes`:
decode `count` items, threading the offset forward. -/
def decodeCount {α : Type} (dec : List Nat → Nat → PyResult (α × Nat))
    (in_bytes : List Nat) : Nat → Nat → PyResult (List α × Nat)
  | 0, offset => .ok ([], offset)
  | n + 1, offset => do
    let (x, off1) ← dec in_bytes offset
    let (xs, off2) ← decodeCount dec in_bytes n off1
    pure (x :: xs, off2)

/-- `Answer.from_bytes`: header at offset 0, then `question_count`
questions, then `answer_count`, `authority_count` and `additional_count`
resource records in that order; any exception anywhere in the sequence is
re-raised as `InvalidAnswer` with the original exception as its cause. -/
def answerFromBytes (fuel : Nat) (in_bytes : List Nat) : PyResult Answer :=
  match (do
    let (header, off0) ← headerFromBytes in_bytes 0
    let (questions, off1) ← decodeCount (questionFromBytes fuel) in_bytes
      header.question_count off0
    let (answers, off2) ← decodeCount (rrFromBytes fuel) in_bytes
      header.answer_count off1
    let (authorities, off3) ← decodeCount (rrFromBytes fuel) in_bytes
      header.authority_count off2
    let (additions, _) ← decodeCount (rrFromBytes fuel) in_bytes
      header.additional_count off3
    pure (Answer.mk header questions answers authorities additions) : PyResult Answer) with
  | .ok a => .ok a
  | .exc e => .exc (.invalidAnswer e)
  | .fuelOut => .fuelOut

/-- The `Query` fields. -/
structure Query where
  header : Header
  question : Question
deriving DecidableEq, Repr

/-- `Query.__init__`, with the identifier made an explicit argument: the
source draws it as `random.randint(0, 65535)` (both bounds inclusive), a
process-wide random source this model injects as a parameter.  The header
is a standard query with one question and default flags. -/
def mkQuery (identifier : Nat) (hostname : List Nat) (rr_type : RRType)
    (is_recursion_desired : Bool) : Query :=
  ⟨⟨identifier, .QUERY, .STANDARD, false, false, is_recursion_desired, false,
    .NO_ERROR, 1, 0, 0, 0⟩,
   ⟨hostname, rr_type, .IN⟩⟩

/-- Modelled from the spec for `_get_identifier`: `random.randint(0, 65535)`
returns any value in the inclusive range, so the possible identifiers are
exactly those at most 65535. -/
def identifierPossible (n : Nat) : Prop := n ≤ 65535

/-- `Query.to_bytes`: header bytes then question bytes. -/
def queryToBytes (q : Query) : PyResult (List Nat) := do
  let hb ← headerToBytes q.header
  let qb ← questionToBytes q.question
  pure (hb ++ qb)

/-- Inversion for sequencing: a successful bind has a successful prefix. -/
theorem PyResult.bind_ok {α β : Type} {x : PyResult α} {f : α → PyResult β} {b : β} :
    (x >>= f) = .ok b → ∃ a, x = .ok a ∧ f a = .ok b := by
  cases x with
  | ok a => exact fun h => ⟨a, rfl, h⟩
  | exc e => intro h; exact absurd h (by simp)
  | fuelOut => intro h; exact absurd h (by simp)

/-- C7 counterexample: a PTR record whose 2-byte payload is the pointer
`0xC0 0x02` into the message.  Decoding the name against the full buffer
at the payload offset would yield `b`, but `_decode_data` hands the PTR
decoder only the 2-byte payload slice, where the pointer target is out of
range, so decoding raises `IndexError` instead. -/
theorem rr_decode_data_ptr_counterexample :
    rrDecodeData 100 [1, 97, 1, 98, 0, 192, 2] RRType.PTR 2 5 = .exc .indexError
    ∧ _decode_name 100 [1, 97, 1, 98, 0, 192, 2] 5 = .ok ⟨pyStr "b", 7⟩
    ∧ pySlice [1, 97, 1, 98, 0, 192, 2] 5 (5 + 2) = [192, 2] := by decide

/-- C7 (amended): `_decode_data` hands the full message buffer and the
payload offset to the CNAME, NS, SOA, TXT and MX decoders (so their
embedded names can follow compression pointers into the whole message),
while A, AAAA and also PTR receive only the rdlength-bounded payload
slice; PTR decodes its name at offset 0 of that slice. -/
theorem rr_decode_data_dispatch :
    ∀ (fuel : Nat) (b : List Nat) (len off : Nat),
      rrDecodeData fuel b .CNAME len off = decodeCNAME fuel b off
      ∧ rrDecodeData fuel b .NS len off = decodeNS fuel b off
      ∧ rrDecodeData fuel b .SOA len off = decodeSOA fuel b off
      ∧ rrDecodeData fuel b .TXT len off = decodeTXT b off
      ∧ rrDecodeData fuel b .MX len off = decodeMX fuel b off
      ∧ rrDecodeData fuel b .A len off = decodeA (pySlice b off (off + len))
      ∧ rrDecodeData fuel b .AAAA len off = decodeAAAA (pySlice b off (off + len))
      ∧ rrDecodeData fuel b .PTR len off
          = (_decode_name fuel (pySlice b off (off + len)) 0 >>=
              fun dn => pure (ResourceData.PTR dn.decoded_)) :=
  fun _ _ _ _ => ⟨rfl, rfl, rfl, rfl, rfl, rfl, rfl, rfl⟩

/-- C10: the identifier of a fresh `Query` is drawn from the inclusive
range 0..65535, but `_encode_number` rejects 65535, so a constructible
query whose random identifier is 65535 makes `Query.to_bytes` raise
`ValueError`, whatever the hostname, record type and recursion flag. -/
theorem query_to_bytes_can_fail :
    identifierPossible 65535
    ∧ ∀ (hostname : List Nat) (rr_type : RRType) (rd : Bool),
        queryToBytes (mkQuery 65535 hostname rr_type rd) = .exc .valueError := by
  refine ⟨Nat.le_refl 65535, fun hostname rr_type rd => ?_⟩
  rw [queryToBytes]
  rw [show (mkQuery 65535 hostname rr_type rd).header =
    ⟨65535, .QUERY, .STANDARD, false, false, rd, false, .NO_ERROR, 1, 0, 0, 0⟩ from rfl]
  rw [headerToBytes]
  rw [show ((⟨65535, .QUERY, .STANDARD, false, false, rd, false, .NO_ERROR,
      1, 0, 0, 0⟩ : Header).identifier : Int) = (65535 : Int) from rfl]
  rw [show _encode_number (65535 : Int) = .exc .valueError from by decide]
  rfl

/-- C8: `_Question.from_bytes` decodes the name, reads only the 2-byte
type from the wire, advances the offset by 4 past the name's end, and the
produced question's class is always the default Internet (the class bytes
are never read back); `_Question.to_bytes` nevertheless always appends the
2-byte Internet class `00 01` after the type. -/
theorem question_decode_contract :
    (∀ (fuel : Nat) (b : List Nat) (s : Nat) (q : Question) (o : Nat),
      questionFromBytes fuel b s = .ok (q, o) →
      ∃ dn : DecodedName, _decode_name fuel b s = .ok dn
        ∧ q.name = dn.decoded_
        ∧ o = dn.offset + 4
        ∧ q.class_ = RRClass.IN
        ∧ ∃ tval : Nat, _decode_number (pySlice b dn.offset (dn.offset + 2)) = .ok tval
            ∧ rrTypeOf tval = .ok q.type_)
    ∧ (∀ (q : Question) (nb tb : List Nat),
      _encode_name q.name = .ok nb → _encode_number (q.type_.value : Int) = .ok tb →
      questionToBytes q = .ok (nb ++ tb ++ [0, 1])) := by
  constructor
  · intro fuel b s q o h
    rw [questionFromBytes] at h
    obtain ⟨dn, hdn, h⟩ := PyResult.bind_ok h
    obtain ⟨tval, htval, h⟩ := PyResult.bind_ok h
    obtain ⟨ty, hty, h⟩ := PyResult.bind_ok h
    rw [PyResult.pure_eq, PyResult.ok.injEq, Prod.mk.injEq] at h
    obtain ⟨hq, ho⟩ := h
    refine ⟨dn, hdn, ?_, by omega, ?_, tval, htval, ?_⟩
    · rw [← hq]
    · rw [← hq]
    · rw [← hq]
      exact hty
  · intro q nb tb hnb htb
    obtain ⟨qn, qt, qc⟩ := q
    cases qc
    rw [questionToBytes] at *
    simp only at hnb htb ⊢
    rw [hnb, htb]
    rw [show _encode_number ((RRClass.IN.value : Nat) : Int) = .ok [0, 1] from by decide]
    rfl

/-- Witness for C8: a question buffer whose class bytes on the wire are
`FF FF` still decodes with class Internet, and encoding writes `00 01`. -/
theorem question_decode_contract_witness :
    (∃ dn : DecodedName, _decode_name 10 [2, 97, 98, 0, 0, 1, 255, 255] 0 = .ok dn
      ∧ pyStr "ab" = dn.decoded_
      ∧ (8 : Nat) = dn.offset + 4
      ∧ RRClass.IN = RRClass.IN
      ∧ ∃ tval : Nat, _decode_number
            (pySlice [2, 97, 98, 0, 0, 1, 255, 255] dn.offset (dn.offset + 2)) = .ok tval
          ∧ rrTypeOf tval = .ok RRType.A)
    ∧ questionToBytes ⟨pyStr "ab", .A, .IN⟩ = .ok ([2, 97, 98, 0] ++ [0, 1] ++ [0, 1]) :=
  ⟨question_decode_contract.1 10 [2, 97, 98, 0, 0, 1, 255, 255] 0
      ⟨pyStr "ab", .A, .IN⟩ 8 (by decide),
   question_decode_contract.2 ⟨pyStr "ab", .A, .IN⟩ [2, 97, 98, 0] [0, 1]
      (by decide) (by decide)⟩

/-- C6: the continuation offset returned by `_ResourceRecord.from_bytes`
is the position right after the 2-byte data-length field plus the decoded
rdlength value stored in the record, whatever the dispatched payload
decoder consumed. -/
theorem rr_offset_rdlength_authoritative :
    ∀ (fuel : Nat) (b : List Nat) (s : Nat) (r : ResourceRecord) (o : Nat),
      rrFromBytes fuel b s = .ok (r, o) →
      ∃ dn : DecodedName, _decode_name fuel b s = .ok dn
        ∧ _decode_number (pySlice b (dn.offset + 8) (dn.offset + 10)) = .ok r.length
        ∧ o = (dn.offset + 10) + r.length := by
  intro fuel b s r o h
  rw [rrFromBytes] at h
  obtain ⟨dn, hdn, h⟩ := PyResult.bind_ok h
  obtain ⟨tval, htval, h⟩ := PyResult.bind_ok h
  obtain ⟨ty, hty, h⟩ := PyResult.bind_ok h
  obtain ⟨cval, hcval, h⟩ := PyResult.bind_ok h
  obtain ⟨cls, hcls, h⟩ := PyResult.bind_ok h
  obtain ⟨ttl, httl, h⟩ := PyResult.bind_ok h
  obtain ⟨len, hlen, h⟩ := PyResult.bind_ok h
  obtain ⟨data, hdata, h⟩ := PyResult.bind_ok h
  rw [PyResult.pure_eq, PyResult.ok.injEq, Prod.mk.injEq] at h
  obtain ⟨hr, ho⟩ := h
  have hrl : r.length = len := by rw [← hr]
  refine ⟨dn, hdn, ?_, by omega⟩
  rw [hrl]
  exact hlen

/-- Witness for C6: a concrete A record; the name ends at offset 3, the
data-length field ends at 13, rdlength is 4, and the returned offset is
13 + 4 = 17. -/
theorem rr_offset_rdlength_authoritative_witness :
    ∃ dn : DecodedName,
      _decode_name 10 [1, 97, 0, 0, 1, 0, 1, 0, 0, 0, 60, 0, 4, 1, 2, 3, 4] 0 = .ok dn
      ∧ _decode_number (pySlice [1, 97, 0, 0, 1, 0, 1, 0, 0, 0, 60, 0, 4, 1, 2, 3, 4]
          (dn.offset + 8) (dn.offset + 10)) = .ok 4
      ∧ (17 : Nat) = (dn.offset + 10) + 4 :=
  rr_offset_rdlength_authoritative 10 [1, 97, 0, 0, 1, 0, 1, 0, 0, 0, 60, 0, 4, 1, 2, 3, 4] 0
    ⟨pyStr "a", .A, .IN, 60, 4, .A (pyStr "1.2.3.4")⟩ 17 (by decide)

/-- A successful header decode always advances the offset by exactly 12. -/
theorem headerFromBytes_offset :
    ∀ (b : List Nat) (beg : Nat) (hd : Header) (o : Nat),
      headerFromBytes b beg = .ok (hd, o) → o = beg + 12 := by
  intro b beg hd o h
  rw [headerFromBytes] at h
  obtain ⟨idv, hid, h⟩ := PyResult.bind_ok h
  obtain ⟨rt, hrt, h⟩ := PyResult.bind_ok h
  obtain ⟨qt, hqt, h⟩ := PyResult.bind_ok h
  obtain ⟨mt, hmt, h⟩ := PyResult.bind_ok h
  obtain ⟨qc, hqc, h⟩ := PyResult.bind_ok h
  obtain ⟨ac, hac, h⟩ := PyResult.bind_ok h
  obtain ⟨nc, hnc, h⟩ := PyResult.bind_ok h
  obtain ⟨dc, hdc, h⟩ := PyResult.bind_ok h
  rw [PyResult.pure_eq, PyResult.ok.injEq, Prod.mk.injEq] at h
  exact h.2.symm

/-- Each `for _ in range(count)` loop returns exactly `count` items. -/
theorem decodeCount_length {α : Type} (dec : List Nat → Nat → PyResult (α × Nat))
    (b : List Nat) : ∀ (n off : Nat) (xs : List α) (o : Nat),
      decodeCount dec b n off = .ok (xs, o) → xs.length = n := by
  intro n
  induction n with
  | zero =>
    intro off xs o h
    rw [decodeCount] at h
    rw [PyResult.ok.injEq, Prod.mk.injEq] at h
    rw [← h.1]
    rfl
  | succ m ih =>
    intro off xs o h
    rw [decodeCount] at h
    obtain ⟨⟨x, off1⟩, h1, h⟩ := PyResult.bind_ok h
    obtain ⟨⟨ys, off2⟩, h2, h⟩ := PyResult.bind_ok h
    simp only [PyResult.pure_eq, PyResult.ok.injEq, Prod.mk.injEq] at h
    rw [← h.1]
    simp [ih off1 ys off2 h2]

/-- C2: `Answer.from_bytes` decodes the header at offset 0, then exactly
`question_count` questions, then `answer_count`, `authority_count` and
`additional_count` resource records in order, threading the offset; every
raised exception surfaces as `InvalidAnswer` with the original failure as
its chained cause, and no partial answer exists (the result is all-or-
nothing by construction).  A bare 12-byte header declaring one answer
raises `InvalidAnswer` caused by the out-of-range read. -/
theorem answer_decode_contract :
    (∀ (fuel : Nat) (b : List Nat) (e : PyExc),
      answerFromBytes fuel b = .exc e → ∃ cause : PyExc, e = .invalidAnswer cause)
    ∧ (∀ (fuel : Nat) (b : List Nat) (a : Answer),
      answerFromBytes fuel b = .ok a →
        headerFromBytes b 0 = .ok (a.header, 12)
        ∧ a.questions.length = a.header.question_count
        ∧ a.answers.length = a.header.answer_count
        ∧ a.authorities.length = a.header.authority_count
        ∧ a.additions.length = a.header.additional_count)
    ∧ answerFromBytes 100 [0, 0, 0, 0, 0, 0, 0, 1, 0, 0, 0, 0]
        = .exc (.invalidAnswer .indexError) := by
  refine ⟨?_, ?_, by decide⟩
  · intro fuel b e h
    rw [answerFromBytes] at h
    split at h
    · exact absurd h (by simp)
    · rename_i e' heq
      refine ⟨e', ?_⟩
      injection h with h'
      exact h'.symm
    · exact absurd h (by simp)
  · intro fuel b a h
    rw [answerFromBytes] at h
    split at h
    case _ a0 heq =>
      injection h with h'
      subst h'
      obtain ⟨⟨hd, off0⟩, h0, heq⟩ := PyResult.bind_ok heq
      obtain ⟨⟨qs, off1⟩, h1, heq⟩ := PyResult.bind_ok heq
      obtain ⟨⟨ans, off2⟩, h2, heq⟩ := PyResult.bind_ok heq
      obtain ⟨⟨auth, off3⟩, h3, heq⟩ := PyResult.bind_ok heq
      obtain ⟨⟨adds, off4⟩, h4, heq⟩ := PyResult.bind_ok heq
      simp only [PyResult.pure_eq, PyResult.ok.injEq] at heq
      subst heq
      have ho : off0 = 0 + 12 := headerFromBytes_offset b 0 hd off0 h0
      refine ⟨?_, ?_, ?_, ?_, ?_⟩
      · rw [show (12 : Nat) = off0 from by omega]
        exact h0
      · exact decodeCount_length _ b hd.question_count off0 qs off1 h1
      · exact decodeCount_length _ b hd.answer_count off1 ans off2 h2
      · exact decodeCount_length _ b hd.authority_count off2 auth off3 h3
      · exact decodeCount_length _ b hd.additional_count off3 adds off4 h4
    case _ e' heq => exact absurd h (by simp)
    case _ heq => exact absurd h (by simp)

/-- Witness for C2: the wrapped-error rule applied at the truncated
buffer, and the ok rule applied at a well-formed empty answer. -/
theorem answer_decode_contract_witness :
    (∃ cause : PyExc, PyExc.invalidAnswer .indexError = .invalidAnswer cause)
    ∧ (headerFromBytes [0, 0, 0, 0, 0, 0, 0, 0, 0, 0, 0, 0] 0 =
        .ok ((Answer.mk ⟨0, .QUERY, .STANDARD, false, false, false, false,
          .NO_ERROR, 0, 0, 0, 0⟩ [] [] [] []).header, 12)
      ∧ (Answer.mk ⟨0, .QUERY, .STANDARD, false, false, false, false,
          .NO_ERROR, 0, 0, 0, 0⟩ [] [] [] []).questions.length = 0
      ∧ (Answer.mk ⟨0, .QUERY, .STANDARD, false, false, false, false,
          .NO_ERROR, 0, 0, 0, 0⟩ [] [] [] []).answers.length = 0
      ∧ (Answer.mk ⟨0, .QUERY, .STANDARD, false, false, false, false,
          .NO_ERROR, 0, 0, 0, 0⟩ [] [] [] []).authorities.length = 0
      ∧ (Answer.mk ⟨0, .QUERY, .STANDARD, false, false, false, false,
          .NO_ERROR, 0, 0, 0, 0⟩ [] [] [] []).additions.length = 0) :=
  ⟨answer_decode_contract.1 100 [0, 0, 0, 0, 0, 0, 0, 1, 0, 0, 0, 0]
      (.invalidAnswer .indexError) (by decide),
   answer_decode_contract.2.1 100 [0, 0, 0, 0, 0, 0, 0, 0, 0, 0, 0, 0]
      (Answer.mk ⟨0, .QUERY, .STANDARD, false, false, false, false,
        .NO_ERROR, 0, 0, 0, 0⟩ [] [] [] []) (by decide)⟩
